import Mathlib

/-!
Verification of the poly-encoder module (parlai/agents/transformer/polyencoder.py).

Tensors are shallowly embedded as nested lists of integers: a vector is a
`List Int`, a 2D tensor a list of rows, a 3D tensor a list of 2D slices.
Validity masks are lists of booleans (true = valid position).  External
collaborators (the generic transformer encoder, the multi-head attention
layer, the learned linear image encoder) enter as function parameters, since
they live outside this module.  Machine floats are modelled by integers: none
of the verified properties depends on the arithmetic of the entries, only on
how the module arranges, truncates, pads, broadcasts and masks them.
-/

abbrev Vec := List Int

abbrev Mat := List Vec

abbrev Ten3 := List Mat

abbrev MaskB := List (List Bool)

/-- Python `t.size(1)` for a (rectangular) nested-list tensor: the length of
the first row. -/
def size1 {α : Type} (t : List (List α)) : Nat :=
  (t.head?.map List.length).getD 0

/-- Python `t.size(2)` for a (rectangular) 3D nested-list tensor. -/
def size2 {α : Type} (t : List (List (List α))) : Nat :=
  size1 (t.headD [])

/-- Dot product of two integer vectors. -/
def dotInt (u v : Vec) : Int := (List.zipWith (· * ·) u v).sum

/-- Matrix product of nested-list matrices: entry (i, j) is the dot product of
row i of `a` with column j of `b`. -/
def matMul (a b : Mat) : Mat :=
  a.map (fun r => (List.range (size1 b)).map (fun j => dotInt r (b.map (fun br => br.getD j 0))))

/-- Batched matrix multiplication (`torch.bmm`). -/
def bmm (a b : Ten3) : Ten3 := List.zipWith matMul a b

/-- A Python tensor whose rank is decided at runtime: the basic attention
layer can return either a 2D or a 3D tensor. -/
inductive PyTensor where
  | t2 : Mat → PyTensor
  | t3 : Ten3 → PyTensor
deriving DecidableEq

/-- Number of tensor axes (`len(t.shape)`). -/
def PyTensor.ndim : PyTensor → Nat
  | .t2 _ => 2
  | .t3 _ => 3

/-- Python `t.squeeze(1)` on a 3D tensor: drops axis 1 exactly when its size
is 1, silently returning a 2D tensor in that case. -/
def squeezeAxis1 (t : Ten3) : PyTensor :=
  if size1 t = 1 then .t2 (t.map (fun m => m.headD [])) else .t3 t

/-- Modelled from the spec: `BasicAttention.forward` lives in
parlai/agents/transformer/modules.py, which is not under src/.  Per the spec
(section 4.1), the basic realization computes softmax-derived weights over the
valid keys, multiplies them into the values (a batched matrix product), and
ends with `squeeze(self.dim - 1)`; every `PolyBasicAttention` in this module
is constructed with `dim=2`, so the squeeze targets axis 1 and, as the spec
warns, "naive implementation silently drops a dimension" exactly when the
number of queries is 1.  The softmax weights are transcendental, so they enter
here as the explicit weight tensor `w` (batch x n_q x n_k); the squeeze
behaviour, which is all the dimensionality claims depend on, is independent of
the weight values.  `get_weights=False` throughout this module, so only the
combined embedding is returned. -/
def basicAttentionSuperForward (w values : Ten3) : PyTensor :=
  squeezeAxis1 (bmm w values)

/-- PolyBasicAttention.forward (polyencoder.py lines 754-764): calls the base
class, then restores the dropped axis only when the polyencoder type is
`codes`, `n_codes` is 1, and the result came back 2D (`unsqueeze(self.dim - 1)`
with `dim = 2`, i.e. unsqueeze at axis 1). -/
def polyBasicAttentionForward (poly_type : String) (n_codes : Nat) (w values : Ten3) :
    PyTensor :=
  match basicAttentionSuperForward w values with
  | .t2 m => if poly_type = "codes" ∧ n_codes = 1 then .t3 (m.map (fun v => [v])) else .t2 m
  | .t3 t => .t3 t

/-- The attention layers a PolyEncoderModule can hold: either a
PolyBasicAttention (with its poly type, n_codes, and attention-kind string) or
a MultiHeadAttention (with its head count). -/
inductive AttentionLayer where
  | polyBasic (poly_type : String) (n_codes : Nat) (attn : String) : AttentionLayer
  | multiHead (n_heads : Nat) : AttentionLayer
deriving DecidableEq

/-- PolyEncoderModule.__init__ lines 280-291: the final attention layer.  Any
attention-kind string other than `multihead` falls into the `else` branch and
builds a PolyBasicAttention carrying that string; no validation is performed
at construction. -/
def mkFinalAttention (attention_type : String) (num_heads n_codes : Nat)
    (poly_type : String) : AttentionLayer :=
  if attention_type = "multihead" then .multiHead num_heads
  else .polyBasic poly_type n_codes attention_type

/-- PolyEncoderModule.__init__ lines 266-277: the codes attention layer.  The
if/elif chain covers only `multihead`, `sqrt` and `basic`; for any other
string the attribute `self.code_attention` is never assigned, modelled here by
`none` — construction completes without raising, and the missing attribute
only fails when first used during a forward pass. -/
def mkCodeAttention (codes_attention_type : String) (num_heads n_codes : Nat)
    (poly_type : String) : Option AttentionLayer :=
  if codes_attention_type = "multihead" then some (.multiHead num_heads)
  else if codes_attention_type = "sqrt" then some (.polyBasic poly_type n_codes "sqrt")
  else if codes_attention_type = "basic" then some (.polyBasic poly_type n_codes "basic")
  else none

/-- Configuration surface of NewContextWithImageEncoder retained by __init__
(polyencoder.py lines 545-597): the combination mode is stored verbatim with
no validation. -/
structure NewCtxImgEnc where
  n_img_layers : Nat
  img_dim : Nat
  image_combination_mode : String
deriving DecidableEq

/-- NewContextWithImageEncoder.__init__: stores the three image options; the
combination-mode string is not checked here. -/
def NewCtxImgEnc.init (image_encoder_num_layers image_features_dim : Nat)
    (image_combination_mode : String) : NewCtxImgEnc :=
  ⟨image_encoder_num_layers, image_features_dim, image_combination_mode⟩

/-- NewContextWithImageEncoder.encode_images (lines 609-655): images that are
tensors are pushed through the learned image encoder (`imgEnc`, external
linear layers) and marked valid; absent entries get the zero dummy vector and
an invalid flag.  If no image in the batch is a tensor, both results stay
None.  The encoded tensor is unsqueezed to batch x 1 x dim (one pseudo-token
per example). -/
def encode_images (imgEnc : Vec → Vec) (embDim : Nat) (images : List (Option Vec)) :
    Option Ten3 × Option MaskB :=
  if images.any (fun im => im.isSome) then
    (some (images.map (fun im => [(im.map imgEnc).getD (List.replicate embDim 0)])),
     some (images.map (fun im => [im.isSome])))
  else (none, none)

/-- Broadcasting addition of two 3D tensors along axis 1 (`torch.add` for the
shapes occurring in this module: batch sizes agree, the embedding axis
agrees, and one operand may have a single position broadcast over the
other's sequence). -/
def torchAdd (a b : Ten3) : Ten3 :=
  if size1 b = 1 ∧ size1 a ≠ 1 then
    List.zipWith (fun ra rb => ra.map (fun v => List.zipWith (· + ·) v (rb.headD []))) a b
  else if size1 a = 1 ∧ size1 b ≠ 1 then
    List.zipWith (fun ra rb => rb.map (fun v => List.zipWith (· + ·) (ra.headD []) v)) a b
  else
    List.zipWith (fun ra rb => List.zipWith (fun u v => List.zipWith (· + ·) u v) ra rb) a b

/-- NewContextWithImageEncoder.add (lines 713-726): drop the None entries and
fold the rest with `+`; None when nothing is left (Python `reduce` would raise
there). -/
def smartAdd (ts : List (Option Ten3)) : Option Ten3 :=
  match ts.filterMap id with
  | [] => none
  | t :: rest => some (rest.foldl torchAdd t)

/-- NewContextWithImageEncoder.cat (lines 728-741) on 3D tensors: drop the
None entries and concatenate along axis 1. -/
def smartCat3 (ts : List (Option Ten3)) : Option Ten3 :=
  match ts.filterMap id with
  | [] => none
  | t :: rest => some (rest.foldl (fun a b => List.zipWith (· ++ ·) a b) t)

/-- NewContextWithImageEncoder.cat on masks: concatenate along axis 1. -/
def smartCatM (ts : List (Option MaskB)) : Option MaskB :=
  match ts.filterMap id with
  | [] => none
  | t :: rest => some (rest.foldl (fun a b => List.zipWith (· ++ ·) a b) t)

/-- Result of NewContextWithImageEncoder.forward.  `pdb_traps` counts how many
`pdb.set_trace()` statements the taken path executes (lines 694-696 in the
`add` branch and 704-706 in the `prepend` branch): the source drops into an
interactive debugger there, which we record as an observable effect. -/
structure ImgFwdOut where
  full_enc : Ten3
  full_mask : Option MaskB
  pdb_traps : Nat
deriving DecidableEq

/-- NewContextWithImageEncoder.forward (lines 657-711).  The token context is
encoded by the inherited transformer encoder (`superFwd`, external); images go
through `encode_images`.  With both absent a RuntimeError is raised.  The
combination mode then selects broadcast addition (executing a pdb trap),
postpending, or prepending (also executing a pdb trap); an unrecognized mode
raises ValueError here, during forward. -/
def newCtxImgForward (enc : NewCtxImgEnc)
    (superFwd : List (List Int) → Ten3 × MaskB) (imgEnc : Vec → Vec) (embDim : Nat)
    (src_tokens : Option (List (List Int))) (image_features : Option (List (Option Vec))) :
    Except String ImgFwdOut :=
  let context_encoded : Option Ten3 := src_tokens.map (fun ts => (superFwd ts).1)
  let context_mask : Option MaskB := src_tokens.map (fun ts => (superFwd ts).2)
  let image_encoded : Option Ten3 :=
    image_features.bind (fun imgs => (encode_images imgEnc embDim imgs).1)
  let extra_masks : Option MaskB :=
    image_features.bind (fun imgs => (encode_images imgEnc embDim imgs).2)
  if context_encoded = none ∧ image_encoded = none then
    .error "You are providing Image+Seq2Seq with no input."
  else if enc.image_combination_mode = "add" then
    match smartAdd [context_encoded, image_encoded] with
    | none => .error "TypeError"
    | some e => .ok ⟨e, context_mask, 1⟩
  else if enc.image_combination_mode = "postpend" then
    match smartCat3 [context_encoded, image_encoded], smartCatM [context_mask, extra_masks] with
    | some e, some m => .ok ⟨e, some m, 0⟩
    | _, _ => .error "TypeError"
  else if enc.image_combination_mode = "prepend" then
    match smartCat3 [image_encoded, context_encoded], smartCatM [extra_masks, context_mask] with
    | some e, some m => .ok ⟨e, some m, 1⟩
    | _, _ => .error "TypeError"
  else .error "Image combination mode not recognized!"

/-- Fixed-size chunking with explicit fuel (structural recursion so terms
reduce definitionally): splits a flat list into consecutive pieces of length
`k`.  This is Python `t.view(bsz, num_cands, -1)` applied to the flat,
row-major buffer. -/
def chunkAux {α : Type} (k : Nat) : Nat → List α → List (List α)
  | 0, _ => []
  | _, [] => []
  | fuel + 1, x :: xs => ((x :: xs).take k) :: chunkAux k fuel (xs.drop (k - 1))

/-- Reshape a flat list into rows of length `k` (`view(bsz, k, -1)`). -/
def chunk {α : Type} (k : Nat) (l : List α) : List (List α) :=
  chunkAux k l.length l

/-- PolyEncoderModule.encode, candidate branch (lines 434-439): the
batch x cands x seqlen token tensor is viewed as (batch*cands) x seqlen
(row-major flattening), every row goes through the external candidate encoder
`f` (which reduces each candidate to one vector), and the result is viewed
back as batch x cands x dim.  `size1 ct` is `cand_tokens.size(1)`. -/
def candEncode (f : List Int → Vec) (ct : List (List (List Int))) : Ten3 :=
  chunk (size1 ct) ((ct.flatten).map f)

/-- PolyEncoderModule.encode, `n_first` branch (lines 464-474): if the encoded
context is shorter than `n_codes`, right-pad representation with zero vectors
and mask with zero (invalid) flags via `torch.cat` along axis 1; otherwise
slice the first `n_codes` positions of both. -/
def nFirstReduce (n_codes bsz dim : Nat) (ctxt_out : Ten3) (ctxt_mask : MaskB) :
    Ten3 × MaskB :=
  if size1 ctxt_out < n_codes then
    (List.zipWith (· ++ ·) ctxt_out
       (List.replicate bsz
         (List.replicate (n_codes - size1 ctxt_out) (List.replicate dim (0 : Int)))),
     List.zipWith (· ++ ·) ctxt_mask
       (List.replicate bsz (List.replicate (n_codes - size1 ctxt_out) false)))
  else
    (ctxt_out.map (List.take n_codes), ctxt_mask.map (List.take n_codes))

/-- The module state PolyEncoderModule.__init__ retains that the encode/score
path reads: the (possibly-None in principle, in fact always-set boolean)
image-features flag, the polyencoder type string, n_codes, and the learned
code bank. -/
structure PolyCfg where
  use_image_features : Option Bool
  type : String
  n_codes : Nat
  codes : Mat

/-- PolyEncoderModule.__init__ line 239:
`self.use_image_features = opt.get('polyencoder_image_encoder_num_layers', 0) > 0`.
The attribute is a genuine boolean for every option value, hence never the
Python None. -/
def initUseImageFeatures (num_layers : Int) : Option Bool :=
  some (decide (0 < num_layers))

/-- The guard on encode line 445: `if self.use_image_features is not None:`.
It tests the attribute against None, not its truth value. -/
def useImageFeaturesGuard (uif : Option Bool) : Bool := uif.isSome

/-- External collaborators of the encode/score path: the context encoder
called with the image keyword, the context encoder called without it (the
line-451 variant), the per-candidate encoder, and the two attention layers
applied as functions (queries, keys, values, mask). -/
structure EncodeDeps where
  encoderCtxtImg : List (List Int) → Option (List (Option Vec)) → Ten3 × MaskB
  encoderCtxtPlain : List (List Int) → Ten3 × MaskB
  encoderCand : List Int → Vec
  codeAttn : Ten3 → Ten3 → Ten3 → MaskB → Ten3
  finalAttn : Ten3 → Ten3 → Ten3 → MaskB → Ten3

/-- PolyEncoderModule.encode (lines 407-476).  Candidates are flattened,
encoded and reshaped; the context, when present, is encoded (always through
the image-aware call, since the line-445 guard compares a boolean against
None) and then reduced either by code attention — whose output mask is
freshly created all-ones of shape bsz x n_codes — or by the `n_first`
truncate/pad rule.  The line-446 assert on the image-list length is the one
value-level assert. -/
def polyEncode (cfg : PolyCfg) (deps : EncodeDeps)
    (ctxt_tokens : Option (List (List Int)))
    (ctxt_image : Option (List (Option Vec)))
    (cand_tokens : Option (List (List (List Int)))) :
    Except String (Option Ten3 × Option MaskB × Option Ten3) :=
  let cand_embed : Option Ten3 := cand_tokens.map (candEncode deps.encoderCand)
  match ctxt_tokens with
  | none => .ok (none, none, cand_embed)
  | some ct =>
    let bsz := ct.length
    if ctxt_image.isSome ∧ (ctxt_image.getD []).length ≠ bsz then
      .error "AssertionError"
    else
      let p := if useImageFeaturesGuard cfg.use_image_features
               then deps.encoderCtxtImg ct ctxt_image
               else deps.encoderCtxtPlain ct
      let ctxt_out := p.1
      let ctxt_mask := p.2
      let dim := size2 ctxt_out
      if cfg.type = "codes" then
        .ok (some (deps.codeAttn (List.replicate bsz cfg.codes) ctxt_out ctxt_out ctxt_mask),
             some (List.replicate bsz (List.replicate cfg.n_codes true)),
             cand_embed)
      else if cfg.type = "n_first" then
        .ok (some (nFirstReduce cfg.n_codes bsz dim ctxt_out ctxt_mask).1,
             some (nFirstReduce cfg.n_codes bsz dim ctxt_out ctxt_mask).2,
             cand_embed)
      else
        .ok (none, none, cand_embed)

/-- PolyEncoderModule.score (lines 478-496): attend over the reduced context
with the candidate vectors as queries, then dot each resulting vector with its
candidate vector (`torch.sum(ctxt_final_rep * cand_embed, 2)`). -/
def polyScore (finalAttn : Ten3 → Ten3 → Ten3 → MaskB → Ten3)
    (ctxt_rep : Ten3) (ctxt_rep_mask : MaskB) (cand_embed : Ten3) : Mat :=
  let ctxt_final_rep := finalAttn cand_embed ctxt_rep ctxt_rep ctxt_rep_mask
  List.zipWith (fun a b => List.zipWith dotInt a b) ctxt_final_rep cand_embed

/-- The two possible results of PolyEncoderModule.forward: the encode triple
or the score matrix. -/
inductive PolyOut where
  | enc : Option Ten3 × Option MaskB × Option Ten3 → PolyOut
  | scored : Mat → PolyOut

/-- PolyEncoderModule.forward (lines 498-539): dispatches to encode when any
raw input is present, to score when all three encoded representations are
present, and otherwise raises `Unsupported operation`. -/
def polyForward (cfg : PolyCfg) (deps : EncodeDeps)
    (ctxt_tokens : Option (List (List Int)))
    (ctxt_image : Option (List (Option Vec)))
    (cand_tokens : Option (List (List (List Int))))
    (ctxt_rep : Option Ten3) (ctxt_rep_mask : Option MaskB) (cand_rep : Option Ten3) :
    Except String PolyOut :=
  if ctxt_tokens.isSome ∨ ctxt_image.isSome ∨ cand_tokens.isSome then
    (polyEncode cfg deps ctxt_tokens ctxt_image cand_tokens).map PolyOut.enc
  else
    match ctxt_rep, ctxt_rep_mask, cand_rep with
    | some r, some m, some c => .ok (.scored (polyScore deps.finalAttn r m c))
    | _, _, _ => .error "Unsupported operation"

/-- Projection onto the reduced-context mask of an encode result. -/
def encMaskOf : Except String (Option Ten3 × Option MaskB × Option Ten3) → Option MaskB
  | .ok (_, m, _) => m
  | .error _ => none

/-- PolyencoderAgent.score_candidates lines 201-205: reuse of a cached
candidate-set representation.  With batch size 1 the cached tensor is used
as-is; otherwise it is expanded along axis 0
(`cand_encs.expand(bsz, cand_encs.size(1), -1)`, which for a size-1 leading
axis replicates the single slice). -/
def expandDim0 (bsz : Nat) (t : Ten3) : Ten3 :=
  if t.length = 1 then List.replicate bsz (t.headD []) else t

/-- The cached-candidates branch of PolyencoderAgent.score_candidates. -/
def selectCandRep (bsz : Nat) (cand_encs : Ten3) : Ten3 :=
  if bsz = 1 then cand_encs else expandDim0 bsz cand_encs

/-- PolyencoderAgent.load_state_dict (lines 220-226): when the model is in
`codes` mode and the incoming state lacks the `codes` key, the current
in-memory code bank is written into the state dict before it is handed to the
framework loader; otherwise the dict passes through untouched.  A state dict
is modelled as an association list keyed by parameter name. -/
def polyLoadStateDict (model_type : String) (model_codes : Mat)
    (state_dict : List (String × Mat)) : List (String × Mat) :=
  if model_type = "codes" ∧ (state_dict.lookup "codes").isNone then
    state_dict ++ [("codes", model_codes)]
  else state_dict

-- Helper lemmas ------------------------------------------------------------

theorem zipWith_append_replicate {α : Type} (l : List (List α)) (x : List α) (n : Nat)
    (h : l.length = n) :
    List.zipWith (· ++ ·) l (List.replicate n x) = l.map (· ++ x) := by
  induction l generalizing n with
  | nil => subst h; rfl
  | cons a tl ih =>
    subst h
    simp only [List.length_cons, List.replicate_succ, List.zipWith_cons_cons, List.map_cons]
    rw [ih tl.length rfl]

theorem map_take_of_len {α : Type} (n : Nat) (l : List (List α))
    (h : ∀ r ∈ l, r.length = n) : l.map (List.take n) = l := by
  induction l with
  | nil => rfl
  | cons a tl ih =>
    simp only [List.map_cons]
    rw [List.take_of_length_le (by rw [h a (by simp)]),
        ih (fun r hr => h r (by simp [hr]))]

theorem chunkAux_fuel {α : Type} (k : Nat) (fuel₁ : Nat) :
    ∀ (fuel₂ : Nat) (l : List α), l.length ≤ fuel₁ → l.length ≤ fuel₂ →
      chunkAux k fuel₁ l = chunkAux k fuel₂ l := by
  induction fuel₁ with
  | zero =>
    intro fuel₂ l h₁ _
    have : l = [] := List.length_eq_zero.mp (Nat.le_zero.mp h₁)
    subst this
    cases fuel₂ <;> rfl
  | succ f ih =>
    intro fuel₂ l h₁ h₂
    cases l with
    | nil => cases fuel₂ <;> rfl
    | cons x xs =>
      cases fuel₂ with
      | zero => simp at h₂
      | succ f₂ =>
        simp only [chunkAux]
        congr 1
        have hd : (xs.drop (k - 1)).length ≤ xs.length := by
          rw [List.length_drop]; omega
        have hx₁ : xs.length ≤ f := by simpa using h₁
        have hx₂ : xs.length ≤ f₂ := by simpa using h₂
        exact ih f₂ _ (le_trans hd hx₁) (le_trans hd hx₂)

theorem chunk_cons {α : Type} (k : Nat) (hk : 0 < k) (r j : List α) (hr : r.length = k) :
    chunk k (r ++ j) = r :: chunk k j := by
  cases r with
  | nil => simp at hr; omega
  | cons x xs =>
    unfold chunk
    have hlen : (x :: xs ++ j).length = (xs.length + j.length) + 1 := by
      simp [List.length_append]
    rw [hlen]
    simp only [List.cons_append, chunkAux, List.append_eq]
    have htake : (x :: (xs ++ j)).take k = x :: xs := by
      have h2 : ((x :: xs) ++ j).take k = x :: xs := List.take_left' hr
      simpa using h2
    have hdrop : (xs ++ j).drop (k - 1) = j := by
      have hxs : xs.length = k - 1 := by simp at hr; omega
      exact List.drop_left' hxs
    rw [htake, hdrop]
    congr 1
    exact chunkAux_fuel k _ _ j (by omega) (le_refl _)

theorem chunk_flatten {α : Type} (k : Nat) (hk : 0 < k) (l : List (List α))
    (h : ∀ r ∈ l, r.length = k) : chunk k l.flatten = l := by
  induction l with
  | nil => rfl
  | cons r tl ih =>
    rw [List.flatten_cons, chunk_cons k hk r _ (h r (by simp))]
    rw [ih (fun s hs => h s (by simp [hs]))]

theorem flatten_getD {α : Type} (k : Nat) (l : List (List α))
    (h : ∀ r ∈ l, r.length = k) :
    ∀ (b i : Nat), b < l.length → i < k → ∀ (d : α),
      l.flatten.getD (b * k + i) d = (l.getD b []).getD i d := by
  induction l with
  | nil => intro b i hb; simp at hb
  | cons r tl ih =>
    intro b i hb hi d
    cases b with
    | zero =>
      have hr : r.length = k := h r (by simp)
      have hlt : i < r.length := by omega
      rw [List.flatten_cons, Nat.zero_mul, Nat.zero_add,
          List.getD_append r tl.flatten d i hlt]
      simp
    | succ b' =>
      have hr : r.length = k := h r (by simp)
      have hidx : r.length ≤ (b' + 1) * k + i := by
        rw [hr]
        calc k ≤ (b' + 1) * k := Nat.le_mul_of_pos_left k (by omega)
          _ ≤ (b' + 1) * k + i := Nat.le_add_right _ _
      rw [List.flatten_cons, List.getD_append_right r tl.flatten d _ hidx]
      have harith : (b' + 1) * k + i - r.length = b' * k + i := by
        rw [hr]; ring_nf; omega
      rw [harith]
      have := ih (fun s hs => h s (by simp [hs])) b' i (by simpa using hb) hi d
      simpa using this

theorem lookup_append_single {α : Type} [DecidableEq α] {β : Type}
    (l : List (α × β)) (a k : α) (v : β) :
    (l ++ [(a, v)]).lookup k = ((l.lookup k).orElse (fun _ => if k = a then some v else none)) := by
  induction l with
  | nil =>
    by_cases h : k = a
    · subst h; simp [List.lookup, Option.orElse]
    · have hb : (k == a) = false := beq_eq_false_iff_ne.mpr h
      simp [List.lookup, Option.orElse, hb, h]
  | cons p tl ih =>
    obtain ⟨pa, pv⟩ := p
    by_cases hk : k = pa
    · subst hk; simp [List.lookup]
    · simp only [List.cons_append, List.lookup]
      have : (k == pa) = false := by simpa using hk
      rw [this]
      simpa using ih

-- Claim theorems -----------------------------------------------------------

/-- C1: in `n_first` mode, for a rectangular encoder output of context length
L, the reduced representation and mask have exactly `n_codes` positions per
example and `bsz` examples; when `n_codes ≤ L` they are exactly the first
`n_codes` positions of the encoder output (the identity when `L = n_codes`),
and when `L < n_codes` they are the encoder output right-padded with zero
vectors and invalid flags. -/
theorem nfirst_reduction_spec (n_codes bsz dim L : Nat) (out : Ten3) (mask : MaskB)
    (hout : ∀ r ∈ out, r.length = L) (hmask : ∀ r ∈ mask, r.length = L)
    (hlen : out.length = bsz) (hmlen : mask.length = bsz) (hsz : size1 out = L) :
    ((nFirstReduce n_codes bsz dim out mask).1.length = bsz ∧
     (nFirstReduce n_codes bsz dim out mask).2.length = bsz) ∧
    ((∀ r ∈ (nFirstReduce n_codes bsz dim out mask).1, r.length = n_codes) ∧
     (∀ r ∈ (nFirstReduce n_codes bsz dim out mask).2, r.length = n_codes)) ∧
    (n_codes ≤ L →
      (nFirstReduce n_codes bsz dim out mask).1 = out.map (List.take n_codes) ∧
      (nFirstReduce n_codes bsz dim out mask).2 = mask.map (List.take n_codes)) ∧
    (L = n_codes →
      (nFirstReduce n_codes bsz dim out mask).1 = out ∧
      (nFirstReduce n_codes bsz dim out mask).2 = mask) ∧
    (L < n_codes →
      (nFirstReduce n_codes bsz dim out mask).1
        = out.map (fun r => r ++ List.replicate (n_codes - L) (List.replicate dim (0 : Int))) ∧
      (nFirstReduce n_codes bsz dim out mask).2
        = mask.map (fun r => r ++ List.replicate (n_codes - L) false)) := by
  by_cases hc : L < n_codes
  · have hcond : size1 out < n_codes := by rw [hsz]; exact hc
    have h1 : (nFirstReduce n_codes bsz dim out mask).1
        = out.map (fun r => r ++ List.replicate (n_codes - L) (List.replicate dim (0 : Int))) := by
      unfold nFirstReduce
      rw [if_pos hcond, hsz, ← hlen, zipWith_append_replicate out _ out.length rfl]
    have h2 : (nFirstReduce n_codes bsz dim out mask).2
        = mask.map (fun r => r ++ List.replicate (n_codes - L) false) := by
      unfold nFirstReduce
      rw [if_pos hcond, hsz, ← hmlen, zipWith_append_replicate mask _ mask.length rfl]
    refine ⟨⟨?_, ?_⟩, ⟨?_, ?_⟩, ?_, ?_, fun _ => ⟨h1, h2⟩⟩
    · rw [h1, List.length_map, hlen]
    · rw [h2, List.length_map, hmlen]
    · rw [h1]; intro r hr
      obtain ⟨r₀, hr₀, rfl⟩ := List.mem_map.mp hr
      rw [List.length_append, hout r₀ hr₀, List.length_replicate]; omega
    · rw [h2]; intro r hr
      obtain ⟨r₀, hr₀, rfl⟩ := List.mem_map.mp hr
      rw [List.length_append, hmask r₀ hr₀, List.length_replicate]; omega
    · intro hle; omega
    · intro heq; omega
  · have hcond : ¬ size1 out < n_codes := by rw [hsz]; exact hc
    have hle : n_codes ≤ L := by omega
    have h1 : (nFirstReduce n_codes bsz dim out mask).1 = out.map (List.take n_codes) := by
      simp only [nFirstReduce, if_neg hcond]
    have h2 : (nFirstReduce n_codes bsz dim out mask).2 = mask.map (List.take n_codes) := by
      simp only [nFirstReduce, if_neg hcond]
    refine ⟨⟨?_, ?_⟩, ⟨?_, ?_⟩, fun _ => ⟨h1, h2⟩, ?_, ?_⟩
    · rw [h1, List.length_map, hlen]
    · rw [h2, List.length_map, hmlen]
    · rw [h1]; intro r hr
      obtain ⟨r₀, hr₀, rfl⟩ := List.mem_map.mp hr
      rw [List.length_take, hout r₀ hr₀]; omega
    · rw [h2]; intro r hr
      obtain ⟨r₀, hr₀, rfl⟩ := List.mem_map.mp hr
      rw [List.length_take, hmask r₀ hr₀]; omega
    · intro heq
      subst heq
      constructor
      · rw [h1, map_take_of_len _ _ hout]
      · rw [h2, map_take_of_len _ _ hmask]
    · intro hlt; omega

theorem nfirst_reduction_spec_witness :
    (nFirstReduce 2 1 1 [[[5], [6]]] [[true, false]]).1 = [[[5], [6]]] ∧
    (nFirstReduce 2 1 1 [[[5], [6]]] [[true, false]]).2 = [[true, false]] := by
  have h := nfirst_reduction_spec 2 1 1 2 [[[5], [6]]] [[true, false]]
    (by decide) (by decide) (by decide) (by decide) (by decide)
  exact h.2.2.2.1 rfl

/-- C2: in `codes` mode, for any non-empty context (and any candidate input,
any image input passing the length assert, any encoder and attention
collaborators — in particular any content of the input context mask), the
reduced-context mask returned by encode is the freshly created all-ones mask
of shape bsz x n_codes. -/
theorem codes_mask_all_valid (cfg : PolyCfg) (deps : EncodeDeps)
    (ct : List (List Int)) (img : Option (List (Option Vec)))
    (cand : Option (List (List (List Int))))
    (htype : cfg.type = "codes") (hne : ct ≠ [])
    (hassert : img = none ∨ (img.getD []).length = ct.length) :
    encMaskOf (polyEncode cfg deps (some ct) img cand)
      = some (List.replicate ct.length (List.replicate cfg.n_codes true)) := by
  have hcond : ¬ (img.isSome ∧ (img.getD []).length ≠ ct.length) := by
    rcases hassert with h | h
    · subst h; simp
    · intro hcontra; exact hcontra.2 h
  simp only [polyEncode, if_neg hcond, htype, if_pos rfl]
  rfl

theorem codes_mask_all_valid_witness :
    encMaskOf (polyEncode
        ⟨some true, "codes", 3, [[1], [2], [3]]⟩
        ⟨fun ct _ => (ct.map (fun r => r.map (fun t => [t, t])),
                      ct.map (fun r => r.map (fun _ => false))),
         fun ct => (ct.map (fun r => r.map (fun t => [t])), ct.map (fun r => r.map (fun _ => true))),
         fun r => r,
         fun q _ _ _ => q,
         fun q _ _ _ => q⟩
        (some [[1]]) none none)
      = some [[true, true, true]] := by
  exact codes_mask_all_valid _ _ [[1]] none none rfl (by decide) (Or.inl rfl)

/-- C3 counterexample: with polyencoder type `n_first` and n_codes = 1, a call
to the basic attention primitive with n_q = n_k = 1 (batch 1, weight tensor
1x1x1, value tensor 1x1x2) returns a 2-dimensional tensor: the axis dropped by
the base class squeeze is not restored, refuting the claim that restoration
happens under either polyencoder type. -/
theorem poly_basic_attention_nfirst_not_restored :
    ¬ ((polyBasicAttentionForward "n_first" 1 [[[1]]] [[[1, 2]]]).ndim = 3) := by
  decide

/-- C3 amended: the dropped axis is restored only under polyencoder type
`codes` (with n_codes = 1): there, the result of the basic attention primitive
is 3-dimensional for every weight and value tensor — either the squeeze never
fired, or the line-763 unsqueeze restores axis 1. -/
theorem poly_basic_attention_codes_restored (w values : Ten3) :
    (polyBasicAttentionForward "codes" 1 w values).ndim = 3 := by
  unfold polyBasicAttentionForward
  cases basicAttentionSuperForward w values with
  | t2 m => simp [PyTensor.ndim]
  | t3 t => simp [PyTensor.ndim]

/-- C4 counterexample: an unrecognized image-combination mode and an
unrecognized attention kind are NOT detected at construction time.
Construction with mode "bogus" completes and stores the string verbatim; the
ValueError is only raised by the subsequent forward call.  Likewise an
unrecognized codes-attention kind leaves the attention attribute unset
(`none`) without raising, and an unrecognized final-attention kind silently
builds a basic attention layer carrying the bogus string. -/
theorem config_errors_raised_at_forward :
    (NewCtxImgEnc.init 1 1 "bogus").image_combination_mode = "bogus" ∧
    newCtxImgForward (NewCtxImgEnc.init 1 1 "bogus")
        (fun _ => ([[[1]]], [[true]])) (fun v => v) 2 (some [[7]]) none
      = .error "Image combination mode not recognized!" ∧
    mkCodeAttention "bogus" 4 64 "codes" = none ∧
    mkFinalAttention "bogus" 4 64 "codes" = .polyBasic "codes" 64 "bogus" := by
  refine ⟨rfl, rfl, rfl, rfl⟩

/-- C4 amended: unrecognized attention kinds and image-combination modes pass
construction without any error (the image encoder stores the mode verbatim;
an unrecognized codes-attention kind leaves the attribute unset; an
unrecognized final-attention kind falls back to a basic attention layer), and
the errors surface only during a forward call: forward with any stored
unrecognized mode raises the ValueError, whatever the inputs and encoders. -/
theorem unrecognized_config_defers_to_forward (mode kind : String)
    (layers dimIn embDim nh nc : Nat) (pt : String)
    (superFwd : List (List Int) → Ten3 × MaskB) (imgEnc : Vec → Vec)
    (ts : List (List Int)) (imgs : Option (List (Option Vec)))
    (hm1 : mode ≠ "add") (hm2 : mode ≠ "postpend") (hm3 : mode ≠ "prepend")
    (hk1 : kind ≠ "multihead") (hk2 : kind ≠ "sqrt") (hk3 : kind ≠ "basic") :
    (NewCtxImgEnc.init layers dimIn mode).image_combination_mode = mode ∧
    newCtxImgForward (NewCtxImgEnc.init layers dimIn mode) superFwd imgEnc embDim
        (some ts) imgs
      = .error "Image combination mode not recognized!" ∧
    mkCodeAttention kind nh nc pt = none := by
  refine ⟨rfl, ?_, ?_⟩
  · simp only [newCtxImgForward, NewCtxImgEnc.init, Option.map_some']
    rw [if_neg (by simp), if_neg hm1, if_neg hm2, if_neg hm3]
  · simp only [mkCodeAttention, if_neg hk1, if_neg hk2, if_neg hk3]

theorem unrecognized_config_defers_to_forward_witness :
    (NewCtxImgEnc.init 1 1 "bogus2").image_combination_mode = "bogus2" ∧
    newCtxImgForward (NewCtxImgEnc.init 1 1 "bogus2")
        (fun _ => ([[[1]]], [[true]])) (fun v => v) 2 (some [[3]]) none
      = .error "Image combination mode not recognized!" ∧
    mkCodeAttention "zzz" 4 64 "codes" = none := by
  exact unrecognized_config_defers_to_forward "bogus2" "zzz" 1 1 2 4 64 "codes"
    (fun _ => ([[[1]]], [[true]])) (fun v => v) [[3]] none
    (by decide) (by decide) (by decide) (by decide) (by decide) (by decide)

/-- C5: in `add` mode, the fused encoding is indeed the token-context
encoding plus the image vector broadcast over every sequence position, with
the mask unchanged — but the forward path executes a `pdb.set_trace()`
interactive-debugging hook (pdb_traps = 1), contradicting the requirement
that the sum is computed with no reliance on debugging hooks.  Concrete run:
batch 1, context encoding [[1,2],[3,4]] with mask [true,true], image feature
[5] encoded to [10,20]. -/
theorem add_mode_hits_debug_trap :
    newCtxImgForward (NewCtxImgEnc.init 1 1 "add")
        (fun _ => ([[[1, 2], [3, 4]]], [[true, true]])) (fun _ => [10, 20]) 2
        (some [[7]]) (some [some [5]])
      = .ok ⟨[[[11, 22], [13, 24]]], some [[true, true]], 1⟩ := by
  rfl

/-- C6: calling the model forward with no context tokens, no image features,
no candidate tokens (and no precomputed representations) raises the usage
error `Unsupported operation`; no triple of Nones is returned. -/
theorem forward_no_input_raises (cfg : PolyCfg) (deps : EncodeDeps) :
    polyForward cfg deps none none none none none none
      = .error "Unsupported operation" := by
  rfl

/-- C7: the candidate flatten/encode/unflatten round trip is lossless and
order-preserving.  For a rectangular batch x cands x seqlen candidate tensor,
encoding through the flattened view equals encoding every candidate
individually in place (`candEncode f ct = ct.map (List.map f)`), and candidate
i of batch element b occupies flattened row b*cands+i. -/
theorem cand_reshape_roundtrip (f : List Int → Vec) (ct : List (List (List Int)))
    (k : Nat) (hrect : ∀ row ∈ ct, row.length = k) (hk : 0 < k) :
    candEncode f ct = ct.map (List.map f) ∧
    (∀ b i, b < ct.length → i < k →
      ct.flatten.getD (b * k + i) [] = (ct.getD b []).getD i []) := by
  constructor
  · unfold candEncode
    cases ct with
    | nil => rfl
    | cons r tl =>
      have hsz : size1 (r :: tl) = k := by
        simp [size1, hrect r (by simp)]
      rw [hsz, List.map_flatten]
      exact chunk_flatten k hk _ (by
        intro s hs
        obtain ⟨s₀, hs₀, rfl⟩ := List.mem_map.mp hs
        rw [List.length_map]
        exact hrect s₀ hs₀)
  · intro b i hb hi
    exact flatten_getD k ct hrect b i hb hi []

theorem cand_reshape_roundtrip_witness :
    candEncode (fun r => r) [[[1], [2]], [[3], [4]]] = [[[1], [2]], [[3], [4]]] ∧
    ([[[1], [2]], [[3], [4]]] : List (List (List Int))).flatten.getD (1 * 2 + 0) []
      = (([[[1], [2]], [[3], [4]]] : List (List (List Int))).getD 1 []).getD 0 [] := by
  have h := cand_reshape_roundtrip (fun r => r) [[[1], [2]], [[3], [4]]] 2
    (by decide) (by decide)
  exact ⟨h.1, h.2 1 0 (by decide) (by decide)⟩

/-- C8: when a cached encoded candidate set (a single slice, leading axis of
size 1) is reused across a batch: with batch size 1 the cached tensor is used
unmodified, and with batch size > 1 every row of the expanded representation
equals the cached slice (and the expanded batch axis has length bsz). -/
theorem cached_cand_broadcast (ce : Ten3) (m : Mat) (bsz b : Nat)
    (hce : ce = [m]) (hbsz : 1 < bsz) (hb : b < bsz) :
    selectCandRep 1 ce = ce ∧
    (selectCandRep bsz ce).getD b [] = m ∧
    (selectCandRep bsz ce).length = bsz := by
  subst hce
  refine ⟨by simp [selectCandRep], ?_, ?_⟩
  · have hne : bsz ≠ 1 := by omega
    simp only [selectCandRep, if_neg hne, expandDim0, List.length_singleton, if_pos rfl,
      List.headD_cons]
    rw [List.getD_eq_getElem _ _ (by simpa using hb)]
    simp
  · have hne : bsz ≠ 1 := by omega
    simp [selectCandRep, if_neg hne, expandDim0]

theorem cached_cand_broadcast_witness :
    selectCandRep 1 [[[7, 8]]] = [[[7, 8]]] ∧
    (selectCandRep 3 [[[7, 8]]]).getD 2 [] = [[7, 8]] ∧
    (selectCandRep 3 [[[7, 8]]]).length = 3 := by
  exact cached_cand_broadcast [[[7, 8]]] [[7, 8]] 3 2 rfl (by decide) (by decide)

/-- C9: restoring model state in `codes` mode from a state dict lacking the
`codes` entry back-fills it with the current in-memory code bank (and touches
no other key), so the dict handed to the framework loader always has a code
bank; a state dict that does contain the entry passes through unmodified for
every model type. -/
theorem load_state_dict_backfills_codes (model_codes : Mat)
    (sd sd₂ : List (String × Mat)) (k t : String)
    (habsent : sd.lookup "codes" = none) (hk : k ≠ "codes")
    (hpresent : (sd₂.lookup "codes").isSome) :
    (polyLoadStateDict "codes" model_codes sd).lookup "codes" = some model_codes ∧
    (polyLoadStateDict "codes" model_codes sd).lookup k = sd.lookup k ∧
    polyLoadStateDict t model_codes sd₂ = sd₂ := by
  have hc : ("codes" : String) = "codes" ∧ ((sd.lookup "codes").isNone = true) :=
    ⟨rfl, by rw [habsent]; rfl⟩
  refine ⟨?_, ?_, ?_⟩
  · unfold polyLoadStateDict
    rw [if_pos hc, lookup_append_single, habsent]
    simp [Option.orElse]
  · unfold polyLoadStateDict
    rw [if_pos hc, lookup_append_single]
    cases hcase : sd.lookup k with
    | some v => simp [Option.orElse]
    | none => simp [Option.orElse, if_neg hk]
  · have : ¬ (t = "codes" ∧ (sd₂.lookup "codes").isNone) := by
      intro hcontra
      rw [Option.isSome_iff_exists] at hpresent
      obtain ⟨v, hv⟩ := hpresent
      rw [hv] at hcontra
      simp at hcontra
    simp [polyLoadStateDict, if_neg this]

theorem load_state_dict_backfills_codes_witness :
    (polyLoadStateDict "codes" [[1]] [("a", [[2]])]).lookup "codes" = some [[1]] ∧
    (polyLoadStateDict "codes" [[1]] [("a", [[2]])]).lookup "a" = [("a", [[2]])].lookup "a" ∧
    polyLoadStateDict "n_first" [[1]] [("codes", [[3]])] = [("codes", [[3]])] := by
  exact load_state_dict_backfills_codes [[1]] [("a", [[2]])] [("codes", [[3]])] "a" "n_first"
    (by decide) (by decide) (by decide)

/-- C10: for every option value, the constructed `use_image_features`
attribute is a boolean, so the encode guard `is not None` is always true and
the branch calling the context encoder without the image_features keyword is
unreachable: the result of encode never depends on the plain-call encoder,
for any inputs (including models built with image fusion disabled,
num_layers ≤ 0). -/
theorem plain_encoder_branch_unreachable (n : Int) (ty : String) (ncodes : Nat)
    (codes : Mat) (deps : EncodeDeps) (g : List (List Int) → Ten3 × MaskB)
    (ct : Option (List (List Int))) (img : Option (List (Option Vec)))
    (cand : Option (List (List (List Int)))) :
    useImageFeaturesGuard (initUseImageFeatures n) = true ∧
    polyEncode ⟨initUseImageFeatures n, ty, ncodes, codes⟩
        { encoderCtxtImg := deps.encoderCtxtImg, encoderCtxtPlain := g,
          encoderCand := deps.encoderCand, codeAttn := deps.codeAttn,
          finalAttn := deps.finalAttn } ct img cand
      = polyEncode ⟨initUseImageFeatures n, ty, ncodes, codes⟩ deps ct img cand := by
  refine ⟨rfl, ?_⟩
  cases ct with
  | none => rfl
  | some c =>
    simp only [polyEncode, useImageFeaturesGuard, initUseImageFeatures, Option.isSome_some,
      if_true]
